import Mathlib

/-!
Verification of the pti-tools core against its specification.

Part 1 embeds the slice/layer composition store (`src/stores/slices.ts`):
the `AudioFile`/`Layer`/`Slice` data model, the store operations
(`addSlice`, `moveSliceUp`, `moveSliceDown`, `removeSlice`, `addLayer`,
`removeLayer`, `trimAudio`, `handleLayerChange`) and the derived
quantities (`totalDuration`, `maxSlicesReached`, `durationExceeded`).

Part 2 embeds the instrument codec (`parseHeader`, `getPtiFile`,
`createBeatSlicedPtiFromSamples`), including an exact model of the IEEE-754
binary64 arithmetic the slice-offset computation performs.

External collaborators (`decodeAudioData`, `sumChannels`, `trimSilence`,
`combineAudio`, and the constants module) are not part of `src/`; where a
claim depends on them they are modelled from the spec, as marked in the
doc comments.
-/

namespace PtiTools

/- The Batteries rational-number operations are `@[irreducible]`; the
concrete-state computations below evaluate them with `decide`, so they
are restored to the default (semireducible) transparency here. -/
attribute [local semireducible] Rat.add Rat.mul Rat.inv Rat.sub Rat.ofScientific

/-- Trim options of an `AudioFile` (source `TrimOption`:
`"none" | "start" | "end" | "both"`; `"end"` is rendered `stop` because
`end` is a Lean keyword). -/
inductive TrimOption where
  | none
  | start
  | stop
  | both
  deriving DecidableEq

/-- Decoded mono PCM audio: a sample sequence plus a sample rate
(Web Audio `AudioBuffer`, restricted to the fields the store reads).
Samples are modelled as exact rationals. -/
structure AudioBuffer where
  samples : List ℚ
  sampleRate : ℚ
  deriving DecidableEq

/-- `AudioBuffer.duration` = frame count / sample rate (seconds). The
frame count is cast through `ℤ` (`Int.cast` evaluates by kernel
reduction, `Nat.binCast` does not; the value is the same). -/
def AudioBuffer.duration (b : AudioBuffer) : ℚ :=
  ((b.samples.length : ℤ) : ℚ) / b.sampleRate

/-- Source `AudioFileOptions`. -/
structure AudioFileOptions where
  trim : TrimOption
  deriving DecidableEq

/-- Source `AudioFile`: id, display name, pre-trim audio, post-trim audio,
trim options. -/
structure AudioFile where
  id : ℕ
  name : String
  originalAudio : AudioBuffer
  audio : AudioBuffer
  options : AudioFileOptions
  deriving DecidableEq

/-- Source `Layer extends AudioFile`: one contributing recording. The
source stores `slice: WeakRef<Slice>`; per spec §9 the non-owning
back-reference is modelled as the owning slice's id. -/
structure Layer extends AudioFile where
  slice : ℕ
  deriving DecidableEq

/-- Source `Slice extends AudioFile`: owns an ordered list of layers. -/
structure Slice extends AudioFile where
  layers : List Layer
  deriving DecidableEq

/-- The store's slice list (`slices.value`). -/
abbrev State := List Slice

/-- Source constant `maxSlices = 48`. -/
def maxSlices : ℕ := 48

/-- Source constant `maxDuration = 45` seconds. -/
def maxDuration : ℚ := 45

/-- Source constant `maxLayers = 12`. -/
def maxLayers : ℕ := 12

/-- Pointwise sum of two sample sequences, the shorter padded with
silence. -/
def zipSum : List ℚ → List ℚ → List ℚ
  | [], ys => ys
  | xs, [] => xs
  | x :: xs, y :: ys => (x + y) :: zipSum xs ys

/-- Modelled from the spec: `combineAudio` lives in `@/audio-tools`,
which is not under `src/`. Spec §4.5: the sample-wise sum of the given
clips (sum, not average). The result's sample rate is the store's
`AudioContext` rate (44100). -/
def combineAudio (bufs : List AudioBuffer) : AudioBuffer :=
  { samples := bufs.foldl (fun acc b => zipSum acc b.samples) []
    sampleRate := 44100 }

/-- The silence-trim collaborator `trimSilence(audio, ctx, fromStart,
fromEnd)` is opaque (spec §1, §6); every definition that needs it takes
it as the parameter `ts`. -/
abbrev TrimFun := AudioBuffer → Bool → Bool → AudioBuffer

/-- The `switch (option)` body of source `trimAudio`: recompute `audio`
from `originalAudio` per the trim option. `"none"` is the identity;
`"both"` calls `trimSilence(audio, ctx)`, whose omitted flags default to
trimming both edges. -/
def applyTrim (ts : TrimFun) (option : TrimOption) (audio : AudioBuffer) :
    AudioBuffer :=
  match option with
  | .none => audio
  | .start => ts audio true false
  | .stop => ts audio false true
  | .both => ts audio true true

/-- Source `totalDuration`: `slices.value.reduce((sum, file) => sum +
file.audio.duration, 0)`. -/
def totalDuration (s : State) : ℚ :=
  s.foldl (fun sum file => sum + file.audio.duration) 0

/-- Source `totalSlices`: the slice count. -/
def totalSlices (s : State) : ℕ := s.length

/-- Source `maxSlicesReached`: `totalSlices >= maxSlices`. -/
def maxSlicesReached (s : State) : Prop := totalSlices s ≥ maxSlices

instance (s : State) : Decidable (maxSlicesReached s) :=
  inferInstanceAs (Decidable (totalSlices s ≥ maxSlices))

/-- Source `durationExceeded`: `totalDuration > maxDuration`. -/
def durationExceeded (s : State) : Prop := totalDuration s > maxDuration

instance (s : State) : Decidable (durationExceeded s) :=
  inferInstanceAs (Decidable (totalDuration s > maxDuration))

/-- Which branch of `addSlice` ran, observable through the distinct
notification messages it emits (max-slices warning, total-duration
warning), a silent return when `loadAudio` failed, or the push of the new
slice. -/
inductive AddResult where
  | rejectedMaxSlices
  | rejectedDuration
  | loadFailed
  | added
  deriving DecidableEq

/-- Source `addSlice` (the critical section inside the slice mutex).
`loadAudio` performs external decoding, so its result is passed in as
`load` (`none` = decode/duration failure, `some af` = the loaded record);
the branches that reject before loading never look at it. `layerId`
stands for the fresh `crypto.randomUUID()` given to the new layer (the
new slice keeps the loaded record's id, as in the source spread). -/
def addSlice (s : State) (load : Option AudioFile) (layerId : ℕ) :
    State × AddResult :=
  if maxSlicesReached s then
    (s, .rejectedMaxSlices)
  else if durationExceeded s then
    (s, .rejectedDuration)
  else
    match load with
    | .none => (s, .loadFailed)
    | .some audioFile =>
        let layer : Layer :=
          { toAudioFile := { audioFile with id := layerId }
            slice := audioFile.id }
        let slice : Slice := { toAudioFile := audioFile, layers := [layer] }
        (s ++ [slice], .added)

/-- `Array.prototype.splice`'s index clamping: a negative start counts
from the end, clamped below by 0; a nonnegative start is clamped above by
the length. -/
def jsIdx (len : ℕ) (start : ℤ) : ℕ :=
  if start < 0 then ((len : ℤ) + start).toNat else min start.toNat len

/-- Source `moveSliceUp`: `splice(idx, 1)` then `splice(idx - 1, 0,
slice)`. The argument is the slice at position `idx` of the list (JS
`indexOf` resolves object identity to that position); out-of-range
indices do not arise from the UI and leave the state unchanged. -/
def moveSliceUp (s : State) (idx : ℕ) : State :=
  match s[idx]? with
  | .none => s
  | .some slice =>
      let removed := s.eraseIdx idx
      removed.insertIdx (jsIdx removed.length ((idx : ℤ) - 1)) slice

/-- Source `moveSliceDown`: `splice(idx, 1)` then `splice(idx + 1, 0,
slice)`. -/
def moveSliceDown (s : State) (idx : ℕ) : State :=
  match s[idx]? with
  | .none => s
  | .some slice =>
      let removed := s.eraseIdx idx
      removed.insertIdx (jsIdx removed.length ((idx : ℤ) + 1)) slice

/-- Source `removeSlice`: `splice(indexOf(slice), 1)`. -/
def removeSlice (s : State) (idx : ℕ) : State := s.eraseIdx idx

/-- Source `handleLayerChange`: recompute `originalAudio` as the combined
layer audio, re-apply the slice's own trim (the embedded `trimAudio`
call, which also rewrites the unchanged trim option), and recompute the
display name as the ordered join of the layer names with `" + "`. A
`Slice` has no `slice` back-reference, so `trimAudio`'s cascade stops
here. -/
def handleLayerChange (ts : TrimFun) (slice : Slice) : Slice :=
  let orig := combineAudio (slice.layers.map (fun layer => layer.audio))
  { slice with
    originalAudio := orig
    audio := applyTrim ts slice.options.trim orig
    name := String.intercalate " + " (slice.layers.map (fun layer => layer.name)) }

/-- Source `addLayer` (the critical section inside the layer mutex): at
`maxLayers` the call is rejected before loading; otherwise the loaded
record (if any) is appended as a layer back-referencing `slice`, keeping
its own id, and `handleLayerChange` runs — also when the load failed. -/
def addLayer (ts : TrimFun) (s : State) (idx : ℕ) (load : Option AudioFile) :
    State :=
  match s[idx]? with
  | .none => s
  | .some slice =>
      if slice.layers.length ≥ maxLayers then s
      else
        let layers :=
          match load with
          | .none => slice.layers
          | .some audioFile =>
              slice.layers ++ [{ toAudioFile := audioFile, slice := slice.id }]
        s.set idx (handleLayerChange ts { slice with layers := layers })

/-- Source `removeLayer`: a slice with a single layer rejects the call;
otherwise `splice(indexOf(layer), 1)` removes the layer at position
`lidx` and `handleLayerChange` runs. -/
def removeLayer (ts : TrimFun) (s : State) (idx lidx : ℕ) : State :=
  match s[idx]? with
  | .none => s
  | .some slice =>
      if slice.layers.length ≤ 1 then s
      else
        s.set idx
          (handleLayerChange ts { slice with layers := slice.layers.eraseIdx lidx })

/-- Source `trimAudio` applied to a `Slice`: store the option, recompute
`audio` from `originalAudio`; a slice has no back-reference, so nothing
cascades. -/
def trimSlice (ts : TrimFun) (s : State) (idx : ℕ) (option : TrimOption) :
    State :=
  match s[idx]? with
  | .none => s
  | .some slice =>
      s.set idx
        { slice with
          options := { trim := option }
          audio := applyTrim ts option slice.originalAudio }

/-- Source `trimAudio` applied to a `Layer` of the slice at `idx`: store
the option, recompute the layer's `audio`, then dereference the
back-reference (the owning slice, still present) and run
`handleLayerChange` on it. -/
def trimLayer (ts : TrimFun) (s : State) (idx lidx : ℕ)
    (option : TrimOption) : State :=
  match s[idx]? with
  | .none => s
  | .some slice =>
      match slice.layers[lidx]? with
      | .none => s
      | .some layer =>
          let layer' :=
            { layer with
              options := { trim := option }
              audio := applyTrim ts option layer.originalAudio }
          s.set idx
            (handleLayerChange ts
              { slice with layers := slice.layers.set lidx layer' })

/-- One user-visible store operation, with the data the source obtains
elsewhere: the (optional) result of the external load pipeline and the
fresh ids `crypto.randomUUID()` would mint. -/
inductive Op where
  | addSlice (load : Option AudioFile) (layerId : ℕ)
  | removeSlice (idx : ℕ)
  | moveSliceUp (idx : ℕ)
  | moveSliceDown (idx : ℕ)
  | addLayer (idx : ℕ) (load : Option AudioFile)
  | removeLayer (idx lidx : ℕ)
  | trimSlice (idx : ℕ) (option : TrimOption)
  | trimLayer (idx lidx : ℕ) (option : TrimOption)

/-- Interpret one store operation. -/
def applyOp (ts : TrimFun) (s : State) : Op → State
  | .addSlice load layerId => (addSlice s load layerId).1
  | .removeSlice idx => removeSlice s idx
  | .moveSliceUp idx => moveSliceUp s idx
  | .moveSliceDown idx => moveSliceDown s idx
  | .addLayer idx load => addLayer ts s idx load
  | .removeLayer idx lidx => removeLayer ts s idx lidx
  | .trimSlice idx option => trimSlice ts s idx option
  | .trimLayer idx lidx option => trimLayer ts s idx lidx option

/-- Run a sequence of store operations from the initial empty store. -/
def execOps (ts : TrimFun) (ops : List Op) : State :=
  ops.foldl (applyOp ts) []

/-- The structural store invariant (spec §3): every slice holds between 1
and `maxLayers` layers, and there are at most `maxSlices` slices. -/
def Inv (s : State) : Prop :=
  (∀ slice ∈ s, 1 ≤ slice.layers.length ∧ slice.layers.length ≤ maxLayers) ∧
    s.length ≤ maxSlices

/-! ## Part 2: the instrument codec (`.pti` container) -/

/-- A byte buffer, addressed byte-wise (an `ArrayBuffer` viewed through a
`DataView`/`Uint8Array`). Every stored value is kept in `0..255`. -/
def Buf := ℕ → ℕ

/-- Read one byte (`DataView.getUint8`). -/
def getU8 (b : Buf) (off : ℕ) : ℕ := b off % 256

/-- Write one byte (`DataView.setUint8`; the value is reduced mod 2^8 as
`ToUint8` does). -/
def setU8 (b : Buf) (off v : ℕ) : Buf :=
  fun i => if i = off then v % 256 else b i

/-- Read a little-endian uint16 (`DataView.getUint16(off, true)`). -/
def getU16le (b : Buf) (off : ℕ) : ℕ := getU8 b off + 256 * getU8 b (off + 1)

/-- Write a little-endian uint16 (`DataView.setUint16(off, v, true)`; the
value is reduced mod 2^16 as `ToUint16` does). -/
def setU16le (b : Buf) (off v : ℕ) : Buf :=
  setU8 (setU8 b off (v % 256)) (off + 1) (v / 256 % 256)

/-- Write a little-endian uint32 (`DataView.setUint32(off, v, true)`). -/
def setU32le (b : Buf) (off v : ℕ) : Buf :=
  setU8 (setU8 (setU8 (setU8 b off (v % 256)) (off + 1) (v / 256 % 256))
    (off + 2) (v / 65536 % 256)) (off + 3) (v / 16777216 % 256)

/- Modelled from the spec: `headerFieldOffset` is declared in the
constants module, which is not under `src/`. The offsets realize the §6
field table — one byte per boolean flag, a 31-byte name, one byte per
enum field, little-endian multi-byte integers, 48 uint16 slice entries —
at non-overlapping positions inside the fixed-size header; the slice
table starts at 280, the one offset the source itself records ("Slice 1
is 280, slice 2 is 282, …"). -/
namespace headerFieldOffset

def isWavetable : ℕ := 20
def instrumentName : ℕ := 21
def volumeAutomationEnabled : ℕ := 52
def panningAutomationEnabled : ℕ := 53
def cutoffAutomationEnabled : ℕ := 54
def wavetablePositionAutomationEnabled : ℕ := 55
def granularPositionAutomationEnabled : ℕ := 56
def finetuneAutomationEnabled : ℕ := 57
def filterEnabled : ℕ := 58
def sampleLength : ℕ := 60
def wavetableWindowSize : ℕ := 64
def samplePlayback : ℕ := 76
def granularShape : ℕ := 97
def granularLoopMode : ℕ := 98
def filterType : ℕ := 268
def slices : ℕ := 280
def totalSlices : ℕ := 376

end headerFieldOffset

/- Modelled from the spec: the `samplePlayback` enum of the constants
module. §6: default member one-shot; the beat-sliced member is the mode
`createBeatSlicedPtiFromSamples` selects. -/
namespace samplePlayback

def ONE_SHOT : ℕ := 0
def BEAT_SLICE : ℕ := 5
/-- The enum's known value set (`Object.values(samplePlayback)`). -/
def values : List ℕ := [0, 1, 2, 3, 4, 5, 6, 7]

end samplePlayback

/- Modelled from the spec: the `granularShape` enum; default square. -/
namespace granularShape

def SQUARE : ℕ := 0
def values : List ℕ := [0, 1, 2]

end granularShape

/- Modelled from the spec: the `granularLoopMode` enum; default
forward. -/
namespace granularLoopMode

def FORWARD : ℕ := 0
def values : List ℕ := [0, 1, 2]

end granularLoopMode

/- Modelled from the spec: the `filterType` enum; default low-pass. -/
namespace filterType

def LOW_PASS : ℕ := 0
def values : List ℕ := [0, 1, 2]

end filterType

/-- Modelled from the spec: `defaultPtiHeader.byteLength`, the fixed
header length the buffer allocation and the payload position use. -/
def defaultPtiHeaderByteLength : ℕ := 392

/-- Modelled from the spec: the built-in default-instrument header
template. Its field contents are unspecified beyond being a default
instrument; it is taken as all-zero bytes, which in particular stores 0
in the `totalSlices` field — a default instrument has no slices. -/
def defaultPtiHeader : Buf := fun _ => 0

/-- The parsed header (source `HeaderData`), restricted to the fields the
claims mention. Fields without their own `case` in `parseHeader`'s switch
(here `totalSlices` and `sampleLength`) are decoded by its `default`
branch, i.e. as a single byte. -/
structure HeaderData where
  isWavetable : Bool
  instrumentName : List ℕ
  sampleLength : ℕ
  wavetableWindowSize : ℕ
  samplePlayback : ℕ
  granularShape : ℕ
  granularLoopMode : ℕ
  filterType : ℕ
  totalSlices : ℕ
  slices : List ℚ
  deriving DecidableEq

/-- Source `parseHeader`: decode each field of `headerFieldOffset` by its
declared kind — booleans as `getUint8 === 1`; the 31-byte name with NUL
bytes stripped; `wavetableWindowSize` as uint16 LE; the four enum fields
as a byte checked against the enum's value set with fallback to the
default member; 48 uint16 LE slice entries divided by 65535; everything
else (the `default` branch) as a single byte. Afterwards
`slices.splice(totalSlices)` keeps only the first `totalSlices`
entries. -/
def parseHeader (b : Buf) : HeaderData :=
  let ts := getU8 b headerFieldOffset.totalSlices
  { isWavetable := getU8 b headerFieldOffset.isWavetable = 1
    instrumentName :=
      ((List.range 31).map
        (fun i => getU8 b (headerFieldOffset.instrumentName + i))).filter
        (fun c => c ≠ 0)
    sampleLength := getU8 b headerFieldOffset.sampleLength
    wavetableWindowSize := getU16le b headerFieldOffset.wavetableWindowSize
    samplePlayback :=
      let v := getU8 b headerFieldOffset.samplePlayback
      if v ∈ samplePlayback.values then v else samplePlayback.ONE_SHOT
    granularShape :=
      let v := getU8 b headerFieldOffset.granularShape
      if v ∈ granularShape.values then v else granularShape.SQUARE
    granularLoopMode :=
      let v := getU8 b headerFieldOffset.granularLoopMode
      if v ∈ granularLoopMode.values then v else granularLoopMode.FORWARD
    filterType :=
      let v := getU8 b headerFieldOffset.filterType
      if v ∈ filterType.values then v else filterType.LOW_PASS
    totalSlices := ts
    slices :=
      (((List.range 48).map
        (fun i =>
          (getU16le b (headerFieldOffset.slices + i * 2) : ℚ) / 65535)).take
        ts) }

/-- Modelled from the spec: `float32ToInt16` of `audio-tools` (not under
`src/`) converts a float sample to signed 16-bit PCM by the standard
scale-and-clamp; the exact rounding convention is irrelevant to every
claim. The result is the two's-complement bit pattern as a `ℕ` below
2^16. -/
def float32ToInt16 (x : ℚ) : ℕ :=
  (max (-32768) (min 32767 ⌊x * 32767⌋)).toNat % 65536 +
    if x < 0 then 32768 else 0

/-- Write the 16-bit PCM payload starting at byte `off`. -/
def writePayload (b : Buf) (off : ℕ) : List ℚ → Buf
  | [] => b
  | x :: xs => writePayload (setU16le b off (float32ToInt16 x)) (off + 2) xs

/-- Source `getPtiFile`: allocate header + 2 bytes per frame, copy the
default header template, patch the `sampleLength` field with the PCM byte
length (uint32 LE), and write the converted samples after the header. -/
def getPtiFile (data : List ℚ) : Buf :=
  let length := data.length * 2
  let b := setU32le defaultPtiHeader headerFieldOffset.sampleLength length
  writePayload b defaultPtiHeaderByteLength data

/-! ### Exact IEEE-754 binary64 arithmetic for the slice-offset law

The source computes each slice offset as `(offset / totalLength) * 65535`
in JS numbers (binary64) before `setUint16` truncates it. The functions
below model that computation exactly: round-to-nearest, ties-to-even, with
a 53-bit significand and unbounded exponent (no value in this computation
comes near the overflow or subnormal range for any physically storable
buffer). The integer inputs `offset` and `totalLength` are themselves
exact in binary64 below 2^53. -/

/-- `⌊log2 n⌋` by structural recursion on a fuel bound (the library
`Nat.log2` is defined by well-founded recursion, which the kernel cannot
evaluate). `natLog2F n n` is exact for `n ≥ 1`. -/
def natLog2F : ℕ → ℕ → ℕ
  | 0, _ => 0
  | fuel + 1, n => if n ≥ 2 then natLog2F fuel (n / 2) + 1 else 0

/-- Round the fraction `a / b` (with `b ≥ 1`) to the nearest integer,
ties to even. -/
def roundNE (a b : ℕ) : ℕ :=
  let q := a / b
  let r := a % b
  if 2 * r < b then q
  else if b < 2 * r then q + 1
  else if q % 2 = 0 then q else q + 1

/-- Does `2^e ≤ p / t` hold (for `p, t ≥ 1`)? -/
def pow2LE (p t : ℕ) (e : ℤ) : Bool :=
  if 0 ≤ e then t * 2 ^ e.toNat ≤ p else t ≤ p * 2 ^ (-e).toNat

/-- `⌊log2 (p / t)⌋` for `p, t ≥ 1`: a first guess from the integer logs
of numerator and denominator, corrected by direct comparison (the true
value is within one of the guess). -/
def floorLog2Frac (p t : ℕ) : ℤ :=
  let e0 : ℤ := (natLog2F p p : ℤ) - (natLog2F t t : ℤ)
  if pow2LE p t (e0 + 1) then e0 + 1
  else if pow2LE p t e0 then e0 else e0 - 1

/-- The binary64 nearest rounding of `p / t` (for `p, t ≥ 1`), as a
53-bit significand `m ∈ [2^52, 2^53]` and an exponent: the value is
`m * 2^e`. -/
def flDiv (p t : ℕ) : ℕ × ℤ :=
  let l := floorLog2Frac p t
  let e : ℤ := l - 52
  let m :=
    if 0 ≤ e then roundNE p (t * 2 ^ e.toNat)
    else roundNE (p * 2 ^ (-e).toNat) t
  (m, e)

/-- Truncate the value `m * 2^e ≥ 0` toward zero (`ToUint16`'s
`truncate` step before the modulus). -/
def truncPow2 (m : ℕ) (e : ℤ) : ℕ :=
  if 0 ≤ e then m * 2 ^ e.toNat else m / 2 ^ (-e).toNat

/-- The uint16 the source stores for one slice: the binary64 evaluation
of `(offset / totalLength) * 65535`, truncated and reduced mod 2^16 by
`setUint16`. A zero numerator gives exactly 0; a zero denominator arises
only from an empty merged buffer, where `0 / 0` is NaN and `ToUint16`
maps NaN to 0. The product `m * 65535` is exact before its own rounding,
so it is rounded by dropping its excess significand bits,
ties-to-even. -/
def jsSliceOffsetU16 (offset totalLength : ℕ) : ℕ :=
  if offset = 0 ∨ totalLength = 0 then 0
  else
    let (m, e) := flDiv offset totalLength
    let prod := m * 65535
    let bits := natLog2F prod prod + 1
    let v :=
      if bits ≤ 53 then truncPow2 prod e
      else
        let s := bits - 53
        truncPow2 (roundNE prod (2 ^ s)) (e + s)
    v % 65536

/-- The exact-arithmetic offset value the spec's beat-slice law names:
`floor(65535 * offset / totalLength)` (with the empty-buffer case 0). -/
def specSliceOffsetU16 (offset totalLength : ℕ) : ℕ :=
  if totalLength = 0 then 0 else 65535 * offset / totalLength

/-- Modelled from the spec: `mergeFloat32Arrays` of `audio-tools`
concatenates the ordered clips into one PCM stream. -/
def mergeFloat32Arrays (audio : List (List ℚ)) : List ℚ := audio.flatten

/-- The bytes `TextEncoder.encodeInto` writes for an ASCII string: one
byte per character. The encoder is UTF-8, so this models it faithfully
exactly for code points below 128 (UTF-8's single-byte range); the name
theorems assume that domain, matching the spec's "31 bytes ASCII"
field. -/
def encodeAscii (s : String) : List ℕ := s.toList.map Char.toNat

/-- Write the bytes of `l` starting at `off`. -/
def writeBytes (b : Buf) (off : ℕ) : List ℕ → Buf
  | [] => b
  | c :: cs => writeBytes (setU8 b off c) (off + 1) cs

/-- The 31-byte name-field content: `(instrumentName || "stitched")
.substring(0, 31).padEnd(31, "\x00")` — the fallback for an empty name,
truncation to the first 31 characters, NUL padding to exactly 31. -/
def nameFieldBytes (instrumentName : String) : List ℕ :=
  let s := encodeAscii (if instrumentName = "" then "stitched" else instrumentName)
  let t := s.take 31
  t ++ List.replicate (31 - t.length) 0

/-- The slice-offset loop of `createBeatSlicedPtiFromSamples`: for each
clip in order, write its entry at `slices + idx * 2` from the running
`offset` (the frame count of all preceding clips, exact in binary64 below
2^53), then advance the offset by the clip's length. -/
def writeSliceOffsets (totalLength : ℕ) (b : Buf) (idx offset : ℕ) :
    List (List ℚ) → Buf
  | [] => b
  | clip :: rest =>
      let b' :=
        setU16le b (headerFieldOffset.slices + idx * 2)
          (jsSliceOffsetU16 offset totalLength)
      writeSliceOffsets totalLength b' (idx + 1) (offset + clip.length) rest

/-- Source `createBeatSlicedPtiFromSamples`: concatenate the clips, build
the single-clip file, write the (possibly fallback, truncated, NUL-padded)
instrument name, set the playback mode to beat-sliced, store the clip
count in `totalSlices`, then write one slice-offset entry per clip. -/
def createBeatSlicedPtiFromSamples (audio : List (List ℚ))
    (instrumentName : String) : Buf :=
  let mergedAudio := mergeFloat32Arrays audio
  let totalLength := mergedAudio.length
  let b := getPtiFile mergedAudio
  let b := writeBytes b headerFieldOffset.instrumentName
    (nameFieldBytes instrumentName)
  let b := setU8 b headerFieldOffset.samplePlayback samplePlayback.BEAT_SLICE
  let b := setU8 b headerFieldOffset.totalSlices audio.length
  writeSliceOffsets totalLength b 0 0 audio

/-! ## Concrete sample data for witnesses and counterexamples -/

/-- A silent clip of `len` frames at sample rate `rate`. -/
def sampleBuffer (len : ℕ) (rate : ℚ) : AudioBuffer :=
  { samples := List.replicate len 0, sampleRate := rate }

/-- A loaded `AudioFile` record with id `n`, as the load pipeline
produces it (trim `none`, `audio = originalAudio`). -/
def sampleAudioFile (n len : ℕ) (rate : ℚ) : AudioFile :=
  { id := n
    name := "clip"
    originalAudio := sampleBuffer len rate
    audio := sampleBuffer len rate
    options := { trim := .none } }

/-- A layer of the slice with id `n`. -/
def sampleLayer (n : ℕ) : Layer :=
  { toAudioFile := sampleAudioFile n 1 1, slice := n }

/-- A one-layer slice with id `n`. -/
def sampleSlice (n : ℕ) : Slice :=
  { toAudioFile := sampleAudioFile n 1 1, layers := [sampleLayer n] }

/-- A trim collaborator instance for witnesses: the identity (trimming
silence from an already silent clip is a legitimate identity). -/
def tsId : TrimFun := fun b _ _ => b

/-- The 48 admissions that reach a full store whose total duration is 90
seconds: 46 empty clips, then two 45-second clips (each admission sees a
prior total of at most 45, which is not *strictly* above the ceiling, so
all 48 are accepted). -/
def ops48 : List Op :=
  List.replicate 46 (Op.addSlice (some (sampleAudioFile 0 0 1)) 0) ++
    [Op.addSlice (some (sampleAudioFile 1 45 1)) 1,
      Op.addSlice (some (sampleAudioFile 2 45 1)) 2]

/-- The state those admissions produce. -/
def st48 : State := execOps tsId ops48

/-- A buffer whose only out-of-range enum byte is the sample-playback
mode (200); every other byte is 0, a valid member of every enum. -/
def bufOneBad : Buf :=
  fun i => if i = headerFieldOffset.samplePlayback then 200 else 0

/-- Two clips whose frame counts drive the double computation across an
integer boundary the exact quotient never reaches: prefix
`p = 411786272865`, total `t = 2^40 + 3`. `p / t` is rounded once (to 53
significand bits), the product with 65535 is rounded again, and the
result lands on the integer 24544, while `floor(65535 * p / t) = 24543`. -/
def clipsCE : List (List ℚ) :=
  [List.replicate 411786272865 0, List.replicate 687725354914 0]

/-- The 31 bytes of the header's name field. -/
def readNameField (b : Buf) : List ℕ :=
  (List.range 31).map (fun i => getU8 b (headerFieldOffset.instrumentName + i))

/-! ## The claims -/

/-- C1. `moveSliceUp`/`moveSliceDown` swap a slice with its neighbour,
and the spec requires a clamped no-op at the boundary. The code violates
the `moveSliceUp` half at index 0: `splice(idx, 1)` removes the first
slice, and `splice(idx - 1, 0, slice)` = `splice(-1, 0, slice)` then
re-inserts it before the *last* element (JS counts a negative start from
the end), so on `[a, b, c]` the result is `[b, a, c]`, not the unchanged
list the spec demands. The interior swap and the `moveSliceDown`
boundary no-op behave as specified, as the remaining conjuncts show. -/
theorem moveSliceUp_top_index_not_noop :
    moveSliceUp [sampleSlice 0, sampleSlice 1, sampleSlice 2] 0
        = [sampleSlice 1, sampleSlice 0, sampleSlice 2] ∧
      moveSliceUp [sampleSlice 0, sampleSlice 1, sampleSlice 2] 0
        ≠ [sampleSlice 0, sampleSlice 1, sampleSlice 2] ∧
      moveSliceUp [sampleSlice 0, sampleSlice 1, sampleSlice 2] 1
        = [sampleSlice 1, sampleSlice 0, sampleSlice 2] ∧
      moveSliceDown [sampleSlice 0, sampleSlice 1, sampleSlice 2] 2
        = [sampleSlice 0, sampleSlice 1, sampleSlice 2] ∧
      moveSliceDown [sampleSlice 0, sampleSlice 1, sampleSlice 2] 0
        = [sampleSlice 1, sampleSlice 0, sampleSlice 2] := by
  refine ⟨by decide, by decide, by decide, by decide, by decide⟩

/-- C3. Every `addSlice` call that is not rejected for capacity or total
duration and whose load pipeline succeeds appends exactly one slice; the
appended slice holds exactly one layer, that layer back-references the
new slice, and its audio is the loaded clip. -/
theorem addSlice_success_appends_one_slice (s : State) (af : AudioFile)
    (layerId : ℕ) (h1 : ¬maxSlicesReached s) (h2 : ¬durationExceeded s) :
    (addSlice s (some af) layerId).1.length = s.length + 1 ∧
      (addSlice s (some af) layerId).2 = .added ∧
      ∃ slice layer,
        (addSlice s (some af) layerId).1 = s ++ [slice] ∧
          slice.layers = [layer] ∧
          layer.slice = slice.id ∧
          layer.audio = af.audio := by
  unfold addSlice
  rw [if_neg h1, if_neg h2]
  refine ⟨by simp, rfl, _, _, rfl, rfl, rfl, rfl⟩

/-- C3 witness: the postcondition at a concrete empty store and loaded
record. -/
theorem addSlice_success_appends_one_slice_witness :
    (addSlice ([] : State) (some (sampleAudioFile 5 1 1)) 9).1.length
        = ([] : State).length + 1 ∧
      (addSlice ([] : State) (some (sampleAudioFile 5 1 1)) 9).2 = .added ∧
      ∃ slice layer,
        (addSlice ([] : State) (some (sampleAudioFile 5 1 1)) 9).1
            = ([] : State) ++ [slice] ∧
          slice.layers = [layer] ∧
          layer.slice = slice.id ∧
          layer.audio = (sampleAudioFile 5 1 1).audio :=
  addSlice_success_appends_one_slice ([] : State) (sampleAudioFile 5 1 1) 9
    (by decide) (by decide)

/-! ### Invariant preservation (claim C4) -/

/-- `handleLayerChange` rewrites audio and name but never the layer
list. -/
lemma layers_handleLayerChange (ts : TrimFun) (sl : Slice) :
    (handleLayerChange ts sl).layers = sl.layers := rfl

/-- The splice start index is clamped into `0..len`. -/
lemma jsIdx_le (len : ℕ) (start : ℤ) : jsIdx len start ≤ len := by
  unfold jsIdx
  split
  · omega
  · exact min_le_right _ _

/-- A successfully indexed slice is a member of the list. -/
lemma mem_of_getElem?_eq_some {s : State} {idx : ℕ} {slice : Slice}
    (h : s[idx]? = some slice) : slice ∈ s := by
  rcases List.getElem?_eq_some.mp h with ⟨hl, rfl⟩
  exact List.getElem_mem hl

lemma lt_length_of_getElem?_eq_some {s : State} {idx : ℕ} {slice : Slice}
    (h : s[idx]? = some slice) : idx < s.length :=
  (List.getElem?_eq_some.mp h).1

lemma Inv_addSlice {s : State} (load : Option AudioFile) (layerId : ℕ)
    (h : Inv s) : Inv (addSlice s load layerId).1 := by
  obtain ⟨hmem, hlen⟩ := h
  unfold addSlice
  split
  · exact ⟨hmem, hlen⟩
  next h1 =>
    split
    · exact ⟨hmem, hlen⟩
    cases load with
    | none => exact ⟨hmem, hlen⟩
    | some af =>
        refine ⟨?_, ?_⟩
        · intro x hx
          rcases List.mem_append.mp hx with hx | hx
          · exact hmem x hx
          · rcases List.mem_singleton.mp hx with rfl
            exact ⟨by simp, by simp [maxLayers]⟩
        · have : ¬totalSlices s ≥ maxSlices := h1
          simp only [totalSlices, maxSlices] at this
          simp only [List.length_append, List.length_singleton, maxSlices]
          omega

lemma Inv_eraseIdx {s : State} (idx : ℕ) (h : Inv s) : Inv (s.eraseIdx idx) := by
  refine ⟨fun x hx => h.1 x (List.mem_of_mem_eraseIdx hx), ?_⟩
  rw [List.length_eraseIdx]
  have := h.2
  split <;> omega

/-- The common shape of both move operations: remove at `idx`, re-insert
at a clamped position. -/
lemma Inv_erase_insert {s : State} {idx : ℕ} {slice : Slice} (n : ℤ)
    (hidx : s[idx]? = some slice) (h : Inv s) :
    Inv ((s.eraseIdx idx).insertIdx (jsIdx (s.eraseIdx idx).length n) slice) := by
  have hlt : idx < s.length := lt_length_of_getElem?_eq_some hidx
  have hmem : slice ∈ s := mem_of_getElem?_eq_some hidx
  have hle : jsIdx (s.eraseIdx idx).length n ≤ (s.eraseIdx idx).length :=
    jsIdx_le _ _
  refine ⟨?_, ?_⟩
  · intro x hx
    rcases (List.mem_insertIdx hle).mp hx with rfl | hx
    · exact h.1 x hmem
    · exact h.1 x (List.mem_of_mem_eraseIdx hx)
  · rw [List.length_insertIdx _ _ hle, List.length_eraseIdx, if_pos hlt]
    have := h.2
    omega

lemma Inv_moveSliceUp {s : State} (idx : ℕ) (h : Inv s) :
    Inv (moveSliceUp s idx) := by
  unfold moveSliceUp
  cases hidx : s[idx]? with
  | none => exact h
  | some slice => exact Inv_erase_insert _ hidx h

lemma Inv_moveSliceDown {s : State} (idx : ℕ) (h : Inv s) :
    Inv (moveSliceDown s idx) := by
  unfold moveSliceDown
  cases hidx : s[idx]? with
  | none => exact h
  | some slice => exact Inv_erase_insert _ hidx h

/-- Replacing the slice at `idx` by one whose layer count is in bounds
preserves the invariant. -/
lemma Inv_set {s : State} (idx : ℕ) (slice' : Slice) (h : Inv s)
    (hb : 1 ≤ slice'.layers.length ∧ slice'.layers.length ≤ maxLayers) :
    Inv (s.set idx slice') := by
  refine ⟨?_, ?_⟩
  · intro x hx
    rcases List.mem_or_eq_of_mem_set hx with hx | rfl
    · exact h.1 x hx
    · exact hb
  · rw [List.length_set]
    exact h.2

lemma Inv_addLayer {s : State} (ts : TrimFun) (idx : ℕ)
    (load : Option AudioFile) (h : Inv s) : Inv (addLayer ts s idx load) := by
  unfold addLayer
  split
  · exact h
  next slice hidx =>
    have hb := h.1 slice (mem_of_getElem?_eq_some hidx)
    split
    · exact h
    next hcap =>
      cases load with
      | none => exact Inv_set idx _ h (by rw [layers_handleLayerChange]; exact hb)
      | some af =>
          exact Inv_set idx _ h (by
            rw [layers_handleLayerChange]
            simp only [List.length_append, List.length_singleton]
            simp only [maxLayers] at hb hcap ⊢
            omega)

lemma Inv_removeLayer {s : State} (ts : TrimFun) (idx lidx : ℕ)
    (h : Inv s) : Inv (removeLayer ts s idx lidx) := by
  unfold removeLayer
  split
  · exact h
  next slice hidx =>
    have hb := h.1 slice (mem_of_getElem?_eq_some hidx)
    split
    · exact h
    next hmin =>
      exact Inv_set idx _ h (by
        rw [layers_handleLayerChange, List.length_eraseIdx]
        simp only [maxLayers] at hb ⊢
        split <;> omega)

lemma Inv_trimSlice {s : State} (ts : TrimFun) (idx : ℕ)
    (option : TrimOption) (h : Inv s) : Inv (trimSlice ts s idx option) := by
  unfold trimSlice
  split
  · exact h
  next slice hidx => exact Inv_set idx _ h (h.1 slice (mem_of_getElem?_eq_some hidx))

lemma Inv_trimLayer {s : State} (ts : TrimFun) (idx lidx : ℕ)
    (option : TrimOption) (h : Inv s) : Inv (trimLayer ts s idx lidx option) := by
  unfold trimLayer
  split
  · exact h
  next slice hidx =>
    split
    · exact h
    next layer hl =>
      have hb := h.1 slice (mem_of_getElem?_eq_some hidx)
      exact Inv_set idx _ h (by
        rw [layers_handleLayerChange]
        simpa only [List.length_set] using hb)

lemma Inv_applyOp (ts : TrimFun) (s : State) (op : Op) (h : Inv s) :
    Inv (applyOp ts s op) := by
  cases op with
  | addSlice load layerId => exact Inv_addSlice load layerId h
  | removeSlice idx => exact Inv_eraseIdx idx h
  | moveSliceUp idx => exact Inv_moveSliceUp idx h
  | moveSliceDown idx => exact Inv_moveSliceDown idx h
  | addLayer idx load => exact Inv_addLayer ts idx load h
  | removeLayer idx lidx => exact Inv_removeLayer ts idx lidx h
  | trimSlice idx option => exact Inv_trimSlice ts idx option h
  | trimLayer idx lidx option => exact Inv_trimLayer ts idx lidx option h

lemma Inv_foldl (ts : TrimFun) (ops : List Op) (s : State) (h : Inv s) :
    Inv (ops.foldl (applyOp ts) s) := by
  induction ops generalizing s with
  | nil => exact h
  | cons op rest ih => exact ih _ (Inv_applyOp ts s op h)

/-- C4. Every state observable through the store's operations satisfies
the structural invariant — between 1 and 12 layers per slice, at most 48
slices — and the two boundary rejections mutate nothing: `addLayer` on a
slice already holding 12 layers and `removeLayer` on a slice holding a
single layer both return the state unchanged. -/
theorem store_invariant_and_boundary_rejections :
    (∀ ts ops, Inv (execOps ts ops)) ∧
      (∀ ts (s : State) idx load slice, s[idx]? = some slice →
        slice.layers.length = maxLayers → addLayer ts s idx load = s) ∧
      (∀ ts (s : State) idx lidx slice, s[idx]? = some slice →
        slice.layers.length = 1 → removeLayer ts s idx lidx = s) := by
  refine ⟨fun ts ops => Inv_foldl ts ops [] ⟨by simp, by simp [maxSlices]⟩,
    ?_, ?_⟩
  · intro ts s idx load slice hidx hfull
    unfold addLayer
    rw [hidx]
    simp [hfull]
  · intro ts s idx lidx slice hidx hone
    unfold removeLayer
    rw [hidx]
    simp [hone]

/-- The slice `getElem?` after a `set` at a valid index. -/
lemma getElem?_set_of_lt {s : State} {idx : ℕ} (v : Slice)
    (h : idx < s.length) : (s.set idx v)[idx]? = some v := by
  simp [List.getElem?_set_self', h]

/-- C5. After a layer add (not capacity-rejected) or a layer remove (not
minimum-rejected) completes, the affected slice's `originalAudio` is the
sample-wise sum of its current layers' audio, its `audio` is that sum
with the slice's unchanged trim option re-applied, and its name is the
ordered join of its layers' names with `" + "`. -/
theorem recomposition_after_layer_change :
    (∀ ts (s : State) idx load slice, s[idx]? = some slice →
      slice.layers.length < maxLayers →
      ∃ slice', (addLayer ts s idx load)[idx]? = some slice' ∧
        slice'.originalAudio
            = combineAudio (slice'.layers.map (fun layer => layer.audio)) ∧
        slice'.audio = applyTrim ts slice'.options.trim slice'.originalAudio ∧
        slice'.options = slice.options ∧
        slice'.name
            = String.intercalate " + "
                (slice'.layers.map (fun layer => layer.name))) ∧
      (∀ ts (s : State) idx lidx slice, s[idx]? = some slice →
        1 < slice.layers.length →
        ∃ slice', (removeLayer ts s idx lidx)[idx]? = some slice' ∧
          slice'.originalAudio
              = combineAudio (slice'.layers.map (fun layer => layer.audio)) ∧
          slice'.audio = applyTrim ts slice'.options.trim slice'.originalAudio ∧
          slice'.options = slice.options ∧
          slice'.name
              = String.intercalate " + "
                  (slice'.layers.map (fun layer => layer.name))) := by
  constructor
  · intro ts s idx load slice hidx hcap
    have hlt := lt_length_of_getElem?_eq_some hidx
    unfold addLayer
    simp only [hidx]
    rw [if_neg (by omega)]
    exact ⟨_, getElem?_set_of_lt _ hlt, rfl, rfl, rfl, rfl⟩
  · intro ts s idx lidx slice hidx hmin
    have hlt := lt_length_of_getElem?_eq_some hidx
    unfold removeLayer
    simp only [hidx]
    rw [if_neg (by omega)]
    exact ⟨_, getElem?_set_of_lt _ hlt, rfl, rfl, rfl, rfl⟩

/-- C6 (amended). Below slice capacity, `addSlice` rejects for total
duration exactly when the post-trim durations of the slices already
present sum to strictly more than the 45-second ceiling; the rejection is
decided before and independently of the candidate source (no load is
attempted: the outcome is the same for every `load` argument), and the
slice list is left unchanged. -/
theorem addSlice_duration_precheck (s : State) (load : Option AudioFile)
    (layerId : ℕ) (hcap : totalSlices s < maxSlices) :
    ((addSlice s load layerId).2 = .rejectedDuration ↔
        totalDuration s > maxDuration) ∧
      (totalDuration s > maxDuration →
        ∀ load' layerId', addSlice s load' layerId' = (s, .rejectedDuration)) := by
  have h1 : ¬maxSlicesReached s := by
    unfold maxSlicesReached
    omega
  constructor
  · unfold addSlice
    rw [if_neg h1]
    by_cases h2 : durationExceeded s
    · rw [if_pos h2]
      exact ⟨fun _ => h2, fun _ => rfl⟩
    · rw [if_neg h2]
      refine ⟨fun h => absurd ?_ h2, fun h => absurd h h2⟩
      cases load with
      | none => cases h
      | some af => cases h
  · intro h2 load' layerId'
    unfold addSlice
    rw [if_neg h1, if_pos (show durationExceeded s from h2)]

/-- C6 witness: the amended duration check at a concrete one-slice store
holding 46 seconds of audio. -/
theorem addSlice_duration_precheck_witness :
    ((addSlice [sampleSlice 0] none 0).2 = .rejectedDuration ↔
        totalDuration [sampleSlice 0] > maxDuration) ∧
      (totalDuration [sampleSlice 0] > maxDuration →
        ∀ load' layerId',
          addSlice [sampleSlice 0] load' layerId' =
            ([sampleSlice 0], .rejectedDuration)) :=
  addSlice_duration_precheck [sampleSlice 0] none 0 (by decide)

set_option maxRecDepth 1000000

/-- C6 counterexample. The claim reads: `addSlice` rejects for total
duration *exactly when* the pre-existing durations sum over the ceiling.
In the reachable state `st48` (48 slices, 90 seconds total) the sum is
over the ceiling, yet `addSlice` rejects for capacity — the capacity
check precedes the duration check — so the biconditional fails. -/
theorem addSlice_duration_precheck_counterexample :
    totalSlices st48 = 48 ∧
      totalDuration st48 > maxDuration ∧
      (addSlice st48 none 0).2 = .rejectedMaxSlices ∧
      (addSlice st48 none 0).1 = st48 ∧
      ¬((addSlice st48 none 0).2 = .rejectedDuration ↔
          totalDuration st48 > maxDuration) := by
  have h1 : totalSlices st48 = 48 := by decide
  have h2 : totalDuration st48 > maxDuration := by decide
  have h3 : (addSlice st48 none 0).2 = AddResult.rejectedMaxSlices := by decide
  have h4 : (addSlice st48 none 0).1 = st48 := by decide
  refine ⟨h1, h2, h3, h4, ?_⟩
  intro hiff
  have := hiff.mpr h2
  rw [h3] at this
  cases this

/-- C7. For every input buffer and each one-byte enum field
independently: a byte outside that enum's known value set parses to the
field's documented default — one-shot playback, square granular shape,
forward granular loop, low-pass filter — regardless of what the other
enum bytes hold. The parser is a total function of the buffer: no input
raises an error. -/
theorem parseHeader_enum_fallback (b : Buf) :
    (getU8 b headerFieldOffset.samplePlayback ∉ samplePlayback.values →
        (parseHeader b).samplePlayback = samplePlayback.ONE_SHOT) ∧
      (getU8 b headerFieldOffset.granularShape ∉ granularShape.values →
        (parseHeader b).granularShape = granularShape.SQUARE) ∧
      (getU8 b headerFieldOffset.granularLoopMode ∉ granularLoopMode.values →
        (parseHeader b).granularLoopMode = granularLoopMode.FORWARD) ∧
      (getU8 b headerFieldOffset.filterType ∉ filterType.values →
        (parseHeader b).filterType = filterType.LOW_PASS) := by
  unfold parseHeader
  exact ⟨fun h1 => if_neg h1, fun h2 => if_neg h2, fun h3 => if_neg h3,
    fun h4 => if_neg h4⟩

/-- C7 witness: a buffer whose only out-of-range enum byte is the
sample-playback mode — its fallback fires independently of the other
enum bytes, which hold valid members. -/
theorem parseHeader_enum_fallback_witness :
    getU8 bufOneBad headerFieldOffset.samplePlayback ∉ samplePlayback.values ∧
      getU8 bufOneBad headerFieldOffset.granularShape ∈ granularShape.values ∧
      (parseHeader bufOneBad).samplePlayback = samplePlayback.ONE_SHOT :=
  ⟨by decide, by decide, (parseHeader_enum_fallback bufOneBad).1 (by decide)⟩

/-- C8. The claim states that parsing a `getPtiFile` buffer recovers
`totalSlices = 0` and a payload-length field of `frameCount * 2`. The
first half holds, but `parseHeader` has no `case` for the 4-byte
`sampleLength` field, so its `default` branch decodes it with `getUint8`:
only the lowest byte of the little-endian uint32 is recovered. A 64-frame
clip (128 payload bytes) still round-trips; a 128-frame clip (256 payload
bytes) parses back as `sampleLength = 0`, not 256. -/
theorem parseHeader_getPtiFile_sampleLength_lowByte :
    (parseHeader (getPtiFile (List.replicate 64 0))).totalSlices = 0 ∧
      (parseHeader (getPtiFile (List.replicate 64 0))).sampleLength = 128 ∧
      (parseHeader (getPtiFile (List.replicate 128 0))).totalSlices = 0 ∧
      (parseHeader (getPtiFile (List.replicate 128 0))).sampleLength = 0 ∧
      (parseHeader (getPtiFile (List.replicate 128 0))).sampleLength ≠
        128 * 2 := by
  refine ⟨by decide, by decide, by decide, by decide, by decide⟩

/-! ### Byte-level readback lemmas for the beat-sliced builder -/

lemma getU8_setU8_self (b : Buf) (off v : ℕ) :
    getU8 (setU8 b off v) off = v % 256 := by
  show (if off = off then v % 256 else b off) % 256 = v % 256
  rw [if_pos rfl]
  omega

lemma getU8_setU8_ne (b : Buf) (off v i : ℕ) (h : i ≠ off) :
    getU8 (setU8 b off v) i = getU8 b i := by
  unfold getU8 setU8
  rw [if_neg h]

lemma getU16le_setU16le_self (b : Buf) (off v : ℕ) :
    getU16le (setU16le b off v) off = v % 65536 := by
  unfold getU16le setU16le
  rw [getU8_setU8_self, getU8_setU8_ne _ _ _ _ (by omega), getU8_setU8_self]
  omega

lemma getU8_setU16le_ne (b : Buf) (off v i : ℕ)
    (h : i ≠ off ∧ i ≠ off + 1) : getU8 (setU16le b off v) i = getU8 b i := by
  unfold setU16le
  rw [getU8_setU8_ne _ _ _ _ h.2, getU8_setU8_ne _ _ _ _ h.1]

lemma getU16le_setU8_ne (b : Buf) (off v i : ℕ)
    (h : off ≠ i ∧ off ≠ i + 1) : getU16le (setU8 b off v) i = getU16le b i := by
  unfold getU16le
  rw [getU8_setU8_ne _ _ _ _ (fun e => h.1 e.symm),
    getU8_setU8_ne _ _ _ _ (fun e => h.2 e.symm)]

lemma getU16le_setU16le_ne (b : Buf) (off v i : ℕ)
    (h : off + 2 ≤ i ∨ i + 2 ≤ off) :
    getU16le (setU16le b off v) i = getU16le b i := by
  unfold setU16le
  rw [getU16le_setU8_ne _ _ _ _ (by omega), getU16le_setU8_ne _ _ _ _ (by omega)]

/-- `writePayload` touches no byte below `off`. -/
lemma getU8_writePayload (data : List ℚ) (b : Buf) (off i : ℕ) (h : i < off) :
    getU8 (writePayload b off data) i = getU8 b i := by
  induction data generalizing b off with
  | nil => rfl
  | cons x xs ih =>
      unfold writePayload
      rw [ih _ _ (by omega), getU8_setU16le_ne _ _ _ _ (by omega)]

lemma getU16le_writePayload (data : List ℚ) (b : Buf) (off i : ℕ)
    (h : i + 1 < off) :
    getU16le (writePayload b off data) i = getU16le b i := by
  unfold getU16le
  rw [getU8_writePayload _ _ _ _ (by omega), getU8_writePayload _ _ _ _ (by omega)]

/-- `writeBytes` touches no byte outside `[off, off + l.length)`. -/
lemma getU8_writeBytes_ne (l : List ℕ) (b : Buf) (off i : ℕ)
    (h : i < off ∨ off + l.length ≤ i) :
    getU8 (writeBytes b off l) i = getU8 b i := by
  induction l generalizing b off with
  | nil => rfl
  | cons c cs ih =>
      unfold writeBytes
      rw [ih _ _ (by simp at h ⊢; omega), getU8_setU8_ne _ _ _ _ (by simp at h; omega)]

lemma getU16le_writeBytes_ne (l : List ℕ) (b : Buf) (off i : ℕ)
    (h : i + 2 ≤ off ∨ off + l.length ≤ i) :
    getU16le (writeBytes b off l) i = getU16le b i := by
  unfold getU16le
  rw [getU8_writeBytes_ne _ _ _ _ (by omega), getU8_writeBytes_ne _ _ _ _ (by omega)]

/-- `writeBytes` stores byte `j` of its list at `off + j` (reduced mod
2^8), and the later steps leave it alone. -/
lemma getU8_writeBytes_self (l : List ℕ) (b : Buf) (off j : ℕ)
    (h : j < l.length) :
    getU8 (writeBytes b off l) (off + j) = l.getD j 0 % 256 := by
  induction l generalizing b off j with
  | nil => simp at h
  | cons c cs ih =>
      unfold writeBytes
      cases j with
      | zero =>
          rw [getU8_writeBytes_ne _ _ _ _ (by omega)]
          simpa using getU8_setU8_self b off c
      | succ j' =>
          have : off + (j' + 1) = (off + 1) + j' := by omega
          rw [this, ih _ _ _ (by simpa using h)]
          simp

/-- `writeSliceOffsets` touches no byte below its first entry nor at or
beyond the entry after its last. -/
lemma getU8_writeSliceOffsets_ne (clips : List (List ℚ))
    (totalLength : ℕ) (b : Buf) (idx offset i : ℕ)
    (h : i < headerFieldOffset.slices + 2 * idx ∨
      headerFieldOffset.slices + 2 * (idx + clips.length) ≤ i) :
    getU8 (writeSliceOffsets totalLength b idx offset clips) i = getU8 b i := by
  induction clips generalizing b idx offset with
  | nil => rfl
  | cons c cs ih =>
      unfold writeSliceOffsets
      rw [ih _ _ _ (by simp at h ⊢; omega),
        getU8_setU16le_ne _ _ _ _ (by simp at h; constructor <;> omega)]

/-- The value `writeSliceOffsets` leaves in entry `idx + k`: the stored
offset of the `k`-th remaining clip, whose running offset is `offset`
plus the lengths of the clips before it. -/
lemma getU16le_writeSliceOffsets (clips : List (List ℚ))
    (totalLength : ℕ) (b : Buf) (idx offset k : ℕ) (hk : k < clips.length) :
    getU16le (writeSliceOffsets totalLength b idx offset clips)
        (headerFieldOffset.slices + (idx + k) * 2)
      = jsSliceOffsetU16 (offset + (((clips.take k).map List.length).sum))
          totalLength := by
  induction clips generalizing b idx offset k with
  | nil => simp at hk
  | cons c cs ih =>
      unfold writeSliceOffsets
      cases k with
      | zero =>
          unfold getU16le
          rw [getU8_writeSliceOffsets_ne _ _ _ _ _ _ (by left; simp; omega),
            getU8_writeSliceOffsets_ne _ _ _ _ _ _ (by left; simp; omega)]
          have := getU16le_setU16le_self b (headerFieldOffset.slices + idx * 2)
            (jsSliceOffsetU16 offset totalLength)
          unfold getU16le at this
          simp only [Nat.add_zero] at this ⊢
          rw [this]
          simp only [List.take_zero, List.map_nil, List.sum_nil, Nat.add_zero]
          have hlt : jsSliceOffsetU16 offset totalLength < 65536 := by
            unfold jsSliceOffsetU16
            split
            · omega
            · exact Nat.mod_lt _ (by omega)
          exact Nat.mod_eq_of_lt hlt
      | succ k' =>
          have harr : idx + (k' + 1) = (idx + 1) + k' := by omega
          rw [harr, ih _ _ _ _ (by simpa using hk)]
          simp [Nat.add_assoc]

/-- Slice entry `k` of a beat-sliced file holds the stored offset of
clip `k`: the binary64 evaluation of
`(preceding frame count / total frame count) * 65535`, truncated. -/
lemma createBeatSliced_entry (audio : List (List ℚ)) (nm : String) (k : ℕ)
    (hk : k < audio.length) :
    getU16le (createBeatSlicedPtiFromSamples audio nm)
        (headerFieldOffset.slices + k * 2)
      = jsSliceOffsetU16 (((audio.take k).map List.length).sum)
          (mergeFloat32Arrays audio).length := by
  unfold createBeatSlicedPtiFromSamples
  have h := getU16le_writeSliceOffsets audio (mergeFloat32Arrays audio).length
    (setU8
      (setU8
        (writeBytes (getPtiFile (mergeFloat32Arrays audio))
          headerFieldOffset.instrumentName (nameFieldBytes nm))
        headerFieldOffset.samplePlayback samplePlayback.BEAT_SLICE)
      headerFieldOffset.totalSlices audio.length)
    0 0 k hk
  simpa using h

/-- The `totalSlices` byte of a beat-sliced file holds the clip count
(for at most 48 clips the slice-offset loop stays inside the 48-entry
table and cannot clobber it, and the count fits one byte). -/
lemma createBeatSliced_totalSlices (audio : List (List ℚ)) (nm : String)
    (hN : audio.length ≤ 48) :
    getU8 (createBeatSlicedPtiFromSamples audio nm)
        headerFieldOffset.totalSlices = audio.length := by
  unfold createBeatSlicedPtiFromSamples
  rw [getU8_writeSliceOffsets_ne _ _ _ _ _ _
    (by
      right
      show headerFieldOffset.slices + 2 * (0 + audio.length) ≤
        headerFieldOffset.totalSlices
      unfold headerFieldOffset.slices headerFieldOffset.totalSlices
      omega)]
  rw [getU8_setU8_self]
  omega

/-- C2 (amended). For at most 48 clips, slice `k`'s little-endian uint16
offset entry holds the IEEE-754 binary64 evaluation of
`(f0 + … + f_{k-1}) / (f0 + … + f_{N-1}) * 65535` truncated toward zero
(`jsSliceOffsetU16`) — which can differ by one from the exact
`floor(65535 * prefix / total)` the claim states —, the first slice's
entry is exactly 0, and the slice-count byte is exactly `N`. -/
theorem beat_sliced_offsets_law (audio : List (List ℚ)) (nm : String)
    (k : ℕ) (hN : audio.length ≤ 48) (hk : k < audio.length) :
    getU16le (createBeatSlicedPtiFromSamples audio nm)
        (headerFieldOffset.slices + k * 2)
      = jsSliceOffsetU16 (((audio.take k).map List.length).sum)
          (mergeFloat32Arrays audio).length ∧
      getU16le (createBeatSlicedPtiFromSamples audio nm)
        (headerFieldOffset.slices + 0 * 2) = 0 ∧
      getU8 (createBeatSlicedPtiFromSamples audio nm)
        headerFieldOffset.totalSlices = audio.length := by
  refine ⟨createBeatSliced_entry audio nm k hk, ?_,
    createBeatSliced_totalSlices audio nm hN⟩
  have h0 := createBeatSliced_entry audio nm 0 (by omega)
  simpa [jsSliceOffsetU16] using h0

/-- C2 witness: the amended law at two one- and two-frame clips. -/
theorem beat_sliced_offsets_law_witness :
    getU16le (createBeatSlicedPtiFromSamples [[0], [0, 0]] "x")
        (headerFieldOffset.slices + 1 * 2)
      = jsSliceOffsetU16 ((([[0], [0, 0]].take 1).map List.length).sum)
          (mergeFloat32Arrays [(([0] : List ℚ)), [0, 0]]).length ∧
      getU16le (createBeatSlicedPtiFromSamples [[0], [0, 0]] "x")
        (headerFieldOffset.slices + 0 * 2) = 0 ∧
      getU8 (createBeatSlicedPtiFromSamples [[0], [0, 0]] "x")
        headerFieldOffset.totalSlices = [[0], [0, 0]].length :=
  beat_sliced_offsets_law [[0], [0, 0]] "x" 1 (by simp) (by simp)

/-- C2 counterexample. The claim's exact-floor law fails on the code: the
source computes `(offset / totalLength) * 65535` in binary64, and for
`clipsCE` slice 1's stored entry is 24544 where the claimed
`floor(65535 * 411786272865 / 1099511627779)` is 24543. -/
theorem beat_sliced_offsets_law_counterexample :
    getU16le (createBeatSlicedPtiFromSamples clipsCE "stitched")
        (headerFieldOffset.slices + 1 * 2) = 24544 ∧
      specSliceOffsetU16 (((clipsCE.take 1).map List.length).sum)
          (mergeFloat32Arrays clipsCE).length = 24543 ∧
      getU16le (createBeatSlicedPtiFromSamples clipsCE "stitched")
          (headerFieldOffset.slices + 1 * 2)
        ≠ specSliceOffsetU16 (((clipsCE.take 1).map List.length).sum)
            (mergeFloat32Arrays clipsCE).length := by
  have he := createBeatSliced_entry clipsCE "stitched" 1
    (by simp only [clipsCE, List.length_cons, List.length_nil]; omega)
  have hsum : (((clipsCE.take 1).map List.length).sum) = 411786272865 := by
    simp only [clipsCE, List.take_succ_cons, List.take_zero, List.map_cons,
      List.map_nil, List.sum_cons, List.sum_nil, List.length_replicate]
    omega
  have htot : (mergeFloat32Arrays clipsCE).length = 1099511627779 := by
    have h1 : mergeFloat32Arrays clipsCE
        = List.replicate 411786272865 (0 : ℚ) ++
            (List.replicate 687725354914 0 ++ []) := rfl
    rw [h1, List.length_append, List.length_append, List.length_replicate,
      List.length_replicate, List.length_nil]
  rw [hsum, htot] at he
  have hjs : jsSliceOffsetU16 411786272865 1099511627779 = 24544 := by decide
  have hspec : specSliceOffsetU16 411786272865 1099511627779 = 24543 := by
    decide
  refine ⟨by rw [he, hjs], by rw [hsum, htot, hspec], ?_⟩
  rw [he, hjs, hsum, htot, hspec]
  decide

/-! ### The instrument-name field (claim C10) -/

/-- The name-field content is always exactly 31 bytes. -/
lemma nameFieldBytes_length (nm : String) : (nameFieldBytes nm).length = 31 := by
  simp only [nameFieldBytes, List.length_append, List.length_replicate]
  have h : ((encodeAscii (if nm = "" then "stitched" else nm)).take 31).length
      ≤ 31 := List.length_take_le _ _
  omega

/-- What the beat-sliced builder leaves in the name field: the 31
`nameFieldBytes`, each reduced mod 2^8 by the byte store. -/
lemma readNameField_createBeatSliced (audio : List (List ℚ)) (nm : String) :
    readNameField (createBeatSlicedPtiFromSamples audio nm)
      = (nameFieldBytes nm).map (fun c => c % 256) := by
  unfold createBeatSlicedPtiFromSamples readNameField
  refine List.ext_getElem (by simp [nameFieldBytes_length]) ?_
  intro i h1 h2
  simp only [List.getElem_map, List.getElem_range]
  have hi : i < 31 := by simpa using h1
  rw [getU8_writeSliceOffsets_ne _ _ _ _ _ _
    (by
      left
      show headerFieldOffset.instrumentName + i < headerFieldOffset.slices + 2 * 0
      unfold headerFieldOffset.instrumentName headerFieldOffset.slices
      omega)]
  rw [getU8_setU8_ne _ _ _ _
    (by
      show headerFieldOffset.instrumentName + i ≠ headerFieldOffset.totalSlices
      unfold headerFieldOffset.instrumentName headerFieldOffset.totalSlices
      omega)]
  rw [getU8_setU8_ne _ _ _ _
    (by
      show headerFieldOffset.instrumentName + i ≠ headerFieldOffset.samplePlayback
      unfold headerFieldOffset.instrumentName headerFieldOffset.samplePlayback
      omega)]
  rw [getU8_writeBytes_self _ _ _ _ (by rw [nameFieldBytes_length]; exact hi)]
  rw [List.getD_eq_getElem _ _ (by rw [nameFieldBytes_length]; exact hi)]

/-- A list of bytes below 2^8 is untouched by the mod-2^8 reduction. -/
lemma map_mod256_eq_self (l : List ℕ) (h : ∀ x ∈ l, x < 256) :
    l.map (fun c => c % 256) = l := by
  induction l with
  | nil => rfl
  | cons c cs ih =>
      have hc := h c (by simp)
      simp only [List.map_cons, Nat.mod_eq_of_lt hc, List.cons.injEq, true_and]
      exact ih (fun x hx => h x (by simp [hx]))

/-- Every byte of the name field is below 2^8 when the name is ASCII
(code points below 128; the fallback "stitched" and the NUL padding
always are). -/
lemma nameFieldBytes_lt_256 (nm : String)
    (hascii : ∀ c ∈ nm.toList, c.toNat < 128) :
    ∀ x ∈ nameFieldBytes nm, x < 256 := by
  intro x hx
  simp only [nameFieldBytes, encodeAscii] at hx
  rcases List.mem_append.mp hx with hx | hx
  · have hx' := List.mem_of_mem_take hx
    rcases List.mem_map.mp hx' with ⟨c, hc, rfl⟩
    split at hc
    · exact (by decide : ∀ c ∈ "stitched".toList, c.toNat < 256) c hc
    · have := hascii c hc
      omega
  · rw [List.eq_of_mem_replicate hx]
    omega

/-- C10. The name written into the 31-byte header field: an empty
instrument name falls back to "stitched" (NUL-padded to 31 bytes), and
for every name only its first 31 characters determine the field (the
`substring(0, 31)` truncation before padding). The name is assumed
ASCII (code points below 128), the domain on which the one-byte
encoding model is faithful to the UTF-8 `encodeInto`. -/
theorem beat_sliced_name_field (audio : List (List ℚ)) (nm : String)
    (hascii : ∀ c ∈ nm.toList, c.toNat < 128) :
    readNameField (createBeatSlicedPtiFromSamples audio nm)
        = nameFieldBytes nm ∧
      nameFieldBytes "" = encodeAscii "stitched" ++ List.replicate 23 0 ∧
      (∀ nm1 nm2 : String, nm1 ≠ "" → nm2 ≠ "" →
        nm1.toList.take 31 = nm2.toList.take 31 →
        nameFieldBytes nm1 = nameFieldBytes nm2) := by
  refine ⟨?_, by decide, ?_⟩
  · rw [readNameField_createBeatSliced,
      map_mod256_eq_self _ (nameFieldBytes_lt_256 nm hascii)]
  · intro nm1 nm2 h1 h2 hpre
    simp only [nameFieldBytes, encodeAscii]
    rw [if_neg h1, if_neg h2, ← List.map_take, ← List.map_take, hpre]

/-- C10 witness: the name field at a concrete clip list, for the empty
name (the "stitched" fallback) packaged through the general theorem. -/
theorem beat_sliced_name_field_witness :
    readNameField (createBeatSlicedPtiFromSamples [[0]] "")
        = nameFieldBytes "" ∧
      nameFieldBytes "" = encodeAscii "stitched" ++ List.replicate 23 0 ∧
      (∀ nm1 nm2 : String, nm1 ≠ "" → nm2 ≠ "" →
        nm1.toList.take 31 = nm2.toList.take 31 →
        nameFieldBytes nm1 = nameFieldBytes nm2) :=
  beat_sliced_name_field [[0]] "" (by decide)

end PtiTools
